import Mathlib

/-!
Verification of the step-execution engine of `Auto_gui_tool.py`.

The definitions below are a shallow embedding of the engine's data model and
algorithms: the `Step` record, the nested-loop plan expander
(`_expand_nested_loops` and `_expand_nested_loops_from_steps`), the per-monitor
executor dispatch, the image-click retry loop, the key-action handler, the
command-safety denylist (including a small executable regular-expression
matcher mirroring Python `re.search` on the patterns used), and the
run-start entry point.  Loops that Python writes with `while`/index arithmetic
are embedded with an explicit fuel argument that is provably sufficient
(the fuel equals the scan window, which the recursion strictly shrinks), so
all definitions reduce by `decide`/`rfl` on concrete inputs.
-/

deriving instance DecidableEq for Except

namespace AutoGui

/-- A parameter value stored in a step's `params` dict.  The tool stores
ints, floats, strings and booleans; floats are embedded as rationals. -/
inductive PValue where
  | int (n : ℤ)
  | float (q : ℚ)
  | str (s : String)
  | bool (b : Bool)
  deriving DecidableEq, Repr

/-- The `params` mapping of a step: a finite string-keyed bag. -/
abbrev Params := List (String × PValue)

/-- `dict.get` / `dict[...]`: first binding of the key, if any. -/
def Params.get : Params → String → Option PValue
  | [], _ => none
  | (k, v) :: rest, key => if k = key then some v else Params.get rest key

/-- The `@dataclass Step` of the source: kind tag, parameter bag, comment,
creation timestamp and enabled flag.  (`__post_init__` fills an empty
`created_at` with the wall clock; the timestamp value itself is opaque here.) -/
structure Step where
  type : String
  params : Params
  comment : String
  created_at : String := ""
  enabled : Bool := true
  deriving DecidableEq, Repr

/-- A raw persisted step record (`data : Dict[str, Any]` as passed to
`Step.from_dict`): each dataclass field may be present or absent. -/
structure StepRecord where
  type : Option String
  params : Option Params
  comment : Option String
  created_at : Option String := none
  enabled : Option Bool := none
  deriving DecidableEq, Repr

/-- `Step.from_dict`: defaults a missing `enabled` to `True` (legacy-format
tolerance) and then calls the dataclass constructor, which fails (Python
`TypeError`) only when `type`, `params` or `comment` is absent.  No kind or
parameter-range validation is performed. -/
def Step.from_dict (data : StepRecord) : Except String Step :=
  let data := if data.enabled = none then { data with enabled := some true } else data
  match data.type, data.params, data.comment with
  | some t, some p, some c =>
      .ok { type := t, params := p, comment := c,
            created_at := data.created_at.getD "", enabled := data.enabled.getD true }
  | _, _, _ => .error "TypeError: missing dataclass field"

/-- `hasattr(self, field)` for a `Step` dataclass instance: every instance has
exactly the five declared attributes. -/
def Step.hasattrF (_ : Step) (field : String) : Bool :=
  ["type", "params", "comment", "created_at", "enabled"].contains field

/-- `Step.validate`: `all(hasattr(self, field) for field in
{'type','params','comment'})`. -/
def Step.validate (s : Step) : Bool :=
  ["type", "params", "comment"].all (fun field => s.hasattrF field)

/-- Indexing `steps[i]`.  Every reachable access in the embedded code is
in bounds (indices come from `range(len(steps))`-style scans), so the
default value is never observable. -/
def stepAt (steps : List Step) (i : ℕ) : Step :=
  steps.getD i { type := "", params := [], comment := "" }

/-! ## Plan expander (`_expand_nested_loops`) -/

/-- A plan entry `(stepIndex, nestLevel)`. -/
abbrev PlanEntry := ℕ × ℕ

/-- An execution plan. -/
abbrev Plan := List PlanEntry

/-- The matching-`repeat_end` scan of `_expand_nested_loops`:
`while end_pos < end_idx and nest_depth > 0: ...; end_pos += 1`.
The fuel is exactly `endIdx - pos`, so fuel 0 coincides with the loop
condition `end_pos < end_idx` failing. -/
def findEndGo (steps : List Step) (endIdx : ℕ) : ℕ → ℕ → ℕ → ℕ × ℕ
  | 0, pos, depth => (pos, depth)
  | fuel + 1, pos, depth =>
    if pos < endIdx ∧ 0 < depth then
      let t := (stepAt steps pos).type
      let depth' := if t = "repeat_start" then depth + 1
                    else if t = "repeat_end" then depth - 1 else depth
      findEndGo steps endIdx fuel (pos + 1) depth'
    else (pos, depth)

/-- The scan entered with `nest_depth = depth` at `end_pos = pos`; returns the
final `(end_pos, nest_depth)` of the Python loop. -/
def findEnd (steps : List Step) (endIdx pos depth : ℕ) : ℕ × ℕ :=
  findEndGo steps endIdx (endIdx - pos) pos depth

/-- `step.params.get('count', 1)` as used by the expander.  The app's repeat
dialog always stores an integer count; a non-integer value would make
Python's `range` raise and is out of scope here, so it is read as the
default. -/
def getCount (ps : Params) : ℤ :=
  match Params.get ps "count" with
  | some (.int n) => n
  | some (.bool b) => if b then 1 else 0
  | _ => 1

/-- The `for repeat_iter in range(repeat_count)` loop body of the expander:
per iteration, expand the loop body (via `body`, which is the recursive
expansion of the open interval at nest level `nestLevel + iter + 1`) and
re-emit the `repeat_end` marker at index `endPos`. -/
def repeatIters (body : ℕ → Except ℕ Plan) (endPos nestLevel : ℕ) :
    ℕ → ℕ → Except ℕ Plan
  | 0, _ => .ok []
  | k + 1, iter => do
    let inner ← body (nestLevel + iter + 1)
    let rest ← repeatIters body endPos nestLevel k (iter + 1)
    .ok (inner ++ (endPos, nestLevel + iter + 1) :: rest)

/-- `_expand_nested_loops(steps, start_idx, end_idx, nest_level)` with explicit
fuel.  Errors carry the index of the unmatched `repeat_start` (the Python
`ValueError` names that step).  Fuel equal to the window `endIdx - i` is
sufficient: each recursive call strictly shrinks the window. -/
def expandF (steps : List Step) : ℕ → ℕ → ℕ → ℕ → Except ℕ Plan
  | 0, _, _, _ => .ok []
  | fuel + 1, i, endIdx, nestLevel =>
    if i < endIdx then
      if (stepAt steps i).type = "repeat_start" then
        -- `end_pos` of the source is `(findEnd steps endIdx (i+1) 1).1 - 1`,
        -- written out below (the matched branch knows the scan succeeded).
        if (findEnd steps endIdx (i + 1) 1).2 = 0 then
          do
            let iters ← repeatIters
              (fun lvl => expandF steps fuel (i + 1)
                ((findEnd steps endIdx (i + 1) 1).1 - 1) lvl)
              ((findEnd steps endIdx (i + 1) 1).1 - 1) nestLevel
              (getCount (stepAt steps i).params).toNat 0
            let rest ← expandF steps fuel
              ((findEnd steps endIdx (i + 1) 1).1 - 1 + 1) endIdx nestLevel
            .ok ((i, nestLevel) :: (iters ++ rest))
        else .error i
      else if (stepAt steps i).type = "repeat_end" then
        expandF steps fuel (i + 1) endIdx nestLevel
      else
        (expandF steps fuel (i + 1) endIdx nestLevel).map
          (fun p => (i, nestLevel) :: p)
    else .ok []

/-- `_expand_nested_loops(steps, start_idx, end_idx, nest_level)`. -/
def expandNestedLoops (steps : List Step) (startIdx endIdx nestLevel : ℕ) :
    Except ℕ Plan :=
  expandF steps (endIdx - startIdx) startIdx endIdx nestLevel

/-- `_generate_execution_plan()` = `_expand_nested_loops(self.steps, 0, len(self.steps))`. -/
def generateExecutionPlan (steps : List Step) : Except ℕ Plan :=
  expandNestedLoops steps 0 steps.length 0

/-! ## Offset expander (`_expand_nested_loops_from_steps`) -/

/-- `_expand_nested_loops_from_steps(steps, start_idx, end_idx, offset,
nest_level)`: identical scan and recursion, but every emitted index and the
error index are `actual_index = i + offset`. -/
def expandFromF (steps : List Step) : ℕ → ℕ → ℕ → ℕ → ℕ → Except ℕ Plan
  | 0, _, _, _, _ => .ok []
  | fuel + 1, i, endIdx, offset, nestLevel =>
    if i < endIdx then
      if (stepAt steps i).type = "repeat_start" then
        if (findEnd steps endIdx (i + 1) 1).2 = 0 then
          do
            let iters ← repeatIters
              (fun lvl => expandFromF steps fuel (i + 1)
                ((findEnd steps endIdx (i + 1) 1).1 - 1) offset lvl)
              ((findEnd steps endIdx (i + 1) 1).1 - 1 + offset) nestLevel
              (getCount (stepAt steps i).params).toNat 0
            let rest ← expandFromF steps fuel
              ((findEnd steps endIdx (i + 1) 1).1 - 1 + 1) endIdx offset nestLevel
            .ok ((i + offset, nestLevel) :: (iters ++ rest))
        else .error (i + offset)
      else if (stepAt steps i).type = "repeat_end" then
        expandFromF steps fuel (i + 1) endIdx offset nestLevel
      else
        (expandFromF steps fuel (i + 1) endIdx offset nestLevel).map
          (fun p => (i + offset, nestLevel) :: p)
    else .ok []

/-- `_expand_nested_loops_from_steps(steps, start_idx, end_idx, offset, nest_level)`. -/
def expandNestedLoopsFromSteps (steps : List Step)
    (startIdx endIdx offset nestLevel : ℕ) : Except ℕ Plan :=
  expandFromF steps (endIdx - startIdx) startIdx endIdx offset nestLevel

/-- `_generate_execution_plan_from_steps(steps, offset)`. -/
def generateExecutionPlanFromSteps (steps : List Step) (offset : ℕ) :
    Except ℕ Plan :=
  expandNestedLoopsFromSteps steps 0 steps.length offset 0

/-! ## Executor dispatch (`_execute_steps_for_monitor`) -/

/-- The handler a step is dispatched to by the `if/elif` chain of
`_execute_steps_for_monitor`.  The final `else` is the key-action handler. -/
inductive Handler where
  | logRepeatStart
  | logRepeatEnd
  | imageClick
  | coordClick
  | coordDrag
  | imageRightClick
  | sleep
  | customText
  | cmdCommand
  | keyAction
  deriving DecidableEq, Repr

/-- The dispatch chain of `_execute_steps_for_monitor`, keyed on `step.type`. -/
def dispatchHandler (t : String) : Handler :=
  if t = "repeat_start" then .logRepeatStart
  else if t = "repeat_end" then .logRepeatEnd
  else if t = "image_click" then .imageClick
  else if t = "coord_click" then .coordClick
  else if t = "coord_drag" then .coordDrag
  else if t = "image_relative_right_click" then .imageRightClick
  else if t = "sleep" then .sleep
  else if t = "custom_text" then .customText
  else if t = "cmd_command" then .cmdCommand
  else .keyAction

/-- The `for exec_index, (step_index, repeat_iter) in enumerate(execution_plan,
start=1)` loop.  `runningAt k` is the value of `self.running` observed at the
top of iteration `k` (cancellation is a concurrent write); `outcome k si h`
tells whether the dispatched handler call returned normally.  The result is
the boolean return value of `_execute_steps_for_monitor` paired with the list
of `(step_index, handler)` dispatches actually performed. -/
def execEntries (steps : List Step) (runningAt : ℕ → Bool)
    (outcome : ℕ → ℕ → Handler → Bool) :
    Plan → ℕ → Bool × List (ℕ × Handler)
  | [], _ => (true, [])
  | (si, _) :: rest, k =>
    if runningAt k = false then (false, [])
    else if (stepAt steps si).enabled = false then
      execEntries steps runningAt outcome rest (k + 1)
    else
      let h := dispatchHandler (stepAt steps si).type
      if outcome k si h then
        let r := execEntries steps runningAt outcome rest (k + 1)
        (r.1, (si, h) :: r.2)
      else (false, [(si, h)])

/-- `_execute_steps_for_monitor`: the execution plan is generated first; a
`ValueError` from the expander is caught by the surrounding `except`, which
returns `False` — the step loop is never entered, so nothing is dispatched. -/
def executeStepsForMonitor (steps : List Step) (runningAt : ℕ → Bool)
    (outcome : ℕ → ℕ → Handler → Bool) : Bool × List (ℕ × Handler) :=
  match generateExecutionPlan steps with
  | .error _ => (false, [])
  | .ok plan => execEntries steps runningAt outcome plan 1

/-! ## Run start (`run_all_steps`) -/

/-- The slice of application state that `run_all_steps` touches: the shared
`running` flag, the fixed loop counter, the start/stop button states and the
number of worker threads spawned so far. -/
structure AppState where
  running : Bool
  loop_count : ℤ
  runButtonEnabled : Bool
  stopButtonEnabled : Bool
  workerThreads : ℕ
  deriving DecidableEq, Repr

/-- `update_execution_buttons(running)`: disables the start button and enables
the stop button while running, and vice versa. -/
def update_execution_buttons (s : AppState) (running : Bool) : AppState :=
  if running then { s with runButtonEnabled := false, stopButtonEnabled := true }
  else { s with runButtonEnabled := true, stopButtonEnabled := false }

/-- `run_all_steps`: sets `self.loop_count = 1` (so the `loop_count < 0`
`ValueError` branch is unreachable), sets `self.running = True`, updates the
buttons and unconditionally spawns a new worker thread.  There is no check of
the current `running` state. -/
def run_all_steps (s : AppState) : AppState :=
  let s := { s with loop_count := 1 }
  let s := { s with running := true }
  let s := update_execution_buttons s true
  { s with workerThreads := s.workerThreads + 1 }

/-! ## Key action handler (`_execute_key_action`) -/

/-- Python `str.lower()` restricted to ASCII (the key names and commands the
tool handles are ASCII). -/
def pyLower (s : String) : String := ⟨s.data.map Char.toLower⟩

/-- The whitespace characters of Python's `str.strip()` (and of `\s`). -/
def pyIsSpace (c : Char) : Bool :=
  [' ', '\t', '\n', '\r', Char.ofNat 11, Char.ofNat 12].contains c

/-- Python `str.strip()` (whitespace trim on both ends). -/
def pyStrip (s : String) : String :=
  ⟨((s.data.dropWhile pyIsSpace).reverse.dropWhile pyIsSpace).reverse⟩

/-- Split a character list at every separator character (separators judged by
`p`), keeping empty pieces — the semantics of Python `str.split(sep)`. -/
def splitOnPred (p : Char → Bool) : List Char → List (List Char)
  | [] => [[]]
  | c :: rest =>
    let r := splitOnPred p rest
    if p c then [] :: r
    else
      match r with
      | [] => [[c]]
      | h :: t => (c :: h) :: t

/-- The primitive effect performed by `_execute_key_action`. -/
inductive KeyEffect where
  | screenshot
  | hotkey (keys : List String)
  | press (key : String)
  deriving DecidableEq, Repr

/-- `_execute_key_action`: reads `params["key"]` (a `KeyError` when absent is
wrapped into the step failure); the reserved chord `ctrl+shift+f12`
(case-insensitively) triggers the screenshot feature instead of a key press;
a `+`-joined chord is pressed via `hotkey` with each part stripped and
lowered; otherwise the single key is pressed lowered. -/
def executeKeyAction (params : Params) : Except String KeyEffect :=
  match Params.get params "key" with
  | none => .error "KeyError: key"
  | some (.str key) =>
    if pyLower key = "ctrl+shift+f12" then .ok .screenshot
    else if key.data.contains '+' then
      .ok (.hotkey ((splitOnPred (fun c => c = '+') key.data).map
        (fun part => pyLower (pyStrip ⟨part⟩))))
    else .ok (.press (pyLower key))
  | some _ => .error "AttributeError: lower"

/-! ## Image click handlers (`_execute_image_click`, `_execute_image_right_click`) -/

/-- Python `int()` / `float → int` truncation toward zero. -/
def pyTrunc (q : ℚ) : ℤ := if 0 ≤ q then ⌊q⌋ else -⌊-q⌋

/-- Python `float(v)` on the value kinds the tool stores.  (Numeric strings,
which Python would also accept, do not occur: the dialogs store numbers.) -/
def pyFloat : PValue → Option ℚ
  | .int n => some (n : ℚ)
  | .float q => some q
  | .bool b => some (if b then 1 else 0)
  | .str _ => none

/-- Python `int(v)` on the value kinds the tool stores. -/
def pyInt : PValue → Option ℤ
  | .int n => some n
  | .float q => some (pyTrunc q)
  | .bool b => some (if b then 1 else 0)
  | .str _ => none

/-- Python truthiness of a stored parameter value. -/
def pyTruthy : PValue → Bool
  | .int n => n ≠ 0
  | .float q => q ≠ 0
  | .bool b => b
  | .str s => s ≠ ""

/-- `os.path.basename` (Windows flavour: both separators split). -/
def pyBasename (p : String) : String :=
  ⟨((splitOnPred (fun c => c = '/' || c = '\\') p.data).getLast?).getD []⟩

/-- A typed execution failure of a step handler. -/
inductive ExecError where
  | keyError (k : String)
  | typeError (k : String)
  | decodeError (path : String)
  | captureError
  | invalidClickType (ct : String)
  | notFound (file : String)
  | unsafeCommand (cmd : String)
  | cmdFailed (exitCode : ℤ) (stderr : String)
  | cmdTimeout (timeout : ℚ)
  | imageClickFailed (cause : ExecError)
  | imageRightClickFailed (cause : ExecError)
  | cmdCommandFailed (cause : ExecError)
  deriving DecidableEq, Repr

/-- `params[k]` coerced with `float(...)`: `KeyError` when absent. -/
def reqFloat (ps : Params) (k : String) : Except ExecError ℚ :=
  match Params.get ps k with
  | some v => (pyFloat v).elim (.error (.typeError k)) .ok
  | none => .error (.keyError k)

/-- `float(params.get(k))`: `float(None)` is a `TypeError` when absent. -/
def getFloat (ps : Params) (k : String) : Except ExecError ℚ :=
  match Params.get ps k with
  | some v => (pyFloat v).elim (.error (.typeError k)) .ok
  | none => .error (.typeError k)

/-- `int(params[k])`: `KeyError` when absent. -/
def reqInt (ps : Params) (k : String) : Except ExecError ℤ :=
  match Params.get ps k with
  | some v => (pyInt v).elim (.error (.typeError k)) .ok
  | none => .error (.keyError k)

/-- `params[k]` expected to be a string: `KeyError` when absent. -/
def reqStr (ps : Params) (k : String) : Except ExecError String :=
  match Params.get ps k with
  | some (.str s) => .ok s
  | some _ => .error (.typeError k)
  | none => .error (.keyError k)

/-- `params.get('click_type', dfl)`.  A non-string stored value compares
unequal to every valid click type, exactly as in Python, so it is read as a
string that is never `"single"`, `"double"` or `"right"`. -/
def clickTypeOf (ps : Params) (dfl : String) : String :=
  match Params.get ps "click_type" with
  | some (.str s) => s
  | some _ => "\x00non-string"
  | none => dfl

/-- The external screen/match/cancellation environment an image search runs
in: per-attempt values of `self.running`, of the capture success, and of
`cv2.minMaxLoc`'s best score and location; the template shape; the monitor
region origin; and the DPI scale percentage. -/
structure ScreenEnv where
  running : ℕ → Bool
  captureOk : ℕ → Bool
  score : ℕ → ℚ
  loc : ℕ → ℤ × ℤ
  tmplW : ℕ
  tmplH : ℕ
  decodeOk : Bool
  minX : ℤ
  minY : ℤ
  dpiScale : ℚ

/-- An observable event of an image-click handler run.  `logAttempt k s` is
the `attempt=k+1, max_val=s` log line written after a failed attempt `k`
(0-based). -/
inductive ImgEvent where
  | capture (attempt : ℕ)
  | matchTemplate (attempt : ℕ)
  | click (clickType : String) (point : ℤ × ℤ)
  | sleepDelay (attempt : ℕ)
  | logAttempt (attempt : ℕ) (score : ℚ)
  deriving DecidableEq, Repr

/-- `click_point = (int(min_x + (max_loc[0] + w // 2) * scale),
int(min_y + (max_loc[1] + h // 2) * scale))` with `scale = dpi_scale / 100.0`. -/
def imageClickPoint (env : ScreenEnv) (l : ℤ × ℤ) : ℤ × ℤ :=
  let scale := env.dpiScale / 100
  (pyTrunc ((env.minX : ℚ) + ((l.1 : ℚ) + (env.tmplW / 2 : ℕ)) * scale),
   pyTrunc ((env.minY : ℚ) + ((l.2 : ℚ) + (env.tmplH / 2 : ℕ)) * scale))

/-- The `for attempt in range(retry + 1)` loop of `_execute_image_click`:
check the cancellation flag, capture, match; on a score at or above the
threshold perform the click per `click_type` and return; otherwise sleep
`delay`, log the attempt and continue.  Falling out of the loop (exhausted
or broken by cancellation) raises the image-not-found error carrying the
file's base name. -/
def imgAttempts (env : ScreenEnv) (threshold : ℚ) (ct : String) (file : String) :
    ℕ → ℕ → List ImgEvent × Option ExecError
  | _, 0 => ([], some (.notFound file))
  | k, r + 1 =>
    if env.running k = false then ([], some (.notFound file))
    else if env.captureOk k = false then ([.capture k], some .captureError)
    else if threshold ≤ env.score k then
      let pt := imageClickPoint env (env.loc k)
      if ct = "single" || ct = "double" || ct = "right" then
        ([.capture k, .matchTemplate k, .click ct pt], none)
      else ([.capture k, .matchTemplate k], some (.invalidClickType ct))
    else
      let rest := imgAttempts env threshold ct file (k + 1) r
      (.capture k :: .matchTemplate k :: .sleepDelay k ::
        .logAttempt k (env.score k) :: rest.1, rest.2)

/-- `_execute_image_click(step, monitor_index)`: parse parameters (path,
`float(params.get("threshold"))`, `click_type` defaulting to `"single"`,
`int(params["retry"])`, `float(params["delay"])`), decode the template, then
run the attempt loop.  Every failure is re-wrapped by the outer `except`. -/
def executeImageClick (env : ScreenEnv) (params : Params) :
    List ImgEvent × Option ExecError :=
  match (do
    let path ← reqStr params "path"
    let threshold ← getFloat params "threshold"
    let retry ← reqInt params "retry"
    let _delay ← getFloat params "delay"
    Except.ok (path, threshold, retry) : Except ExecError (String × ℚ × ℤ)) with
  | .error e => ([], some (.imageClickFailed e))
  | .ok (path, threshold, retry) =>
    let ct := clickTypeOf params "single"
    if env.decodeOk = false then ([], some (.imageClickFailed (.decodeError path)))
    else
      let res := imgAttempts env threshold ct (pyBasename path) 0 (retry + 1).toNat
      (res.1, res.2.map .imageClickFailed)

/-- The offset click point of `_execute_image_right_click`: the matched base
point plus the DPI-scaled `offset_x`/`offset_y`. -/
def imageOffsetClickPoint (env : ScreenEnv) (l : ℤ × ℤ) (ox oy : ℤ) : ℤ × ℤ :=
  ((imageClickPoint env l).1 + pyTrunc ((ox : ℚ) * (env.dpiScale / 100)),
   (imageClickPoint env l).2 + pyTrunc ((oy : ℚ) * (env.dpiScale / 100)))

/-- The attempt loop of `_execute_image_right_click`: as `imgAttempts`, but
the click point adds the DPI-scaled offsets to the matched base point. -/
def imgAttemptsR (env : ScreenEnv) (threshold : ℚ) (ct : String)
    (ox oy : ℤ) (file : String) : ℕ → ℕ → List ImgEvent × Option ExecError
  | _, 0 => ([], some (.notFound file))
  | k, r + 1 =>
    if env.running k = false then ([], some (.notFound file))
    else if env.captureOk k = false then ([.capture k], some .captureError)
    else if threshold ≤ env.score k then
      if ct = "single" || ct = "double" || ct = "right" then
        ([.capture k, .matchTemplate k,
          .click ct (imageOffsetClickPoint env (env.loc k) ox oy)], none)
      else ([.capture k, .matchTemplate k], some (.invalidClickType ct))
    else
      let rest := imgAttemptsR env threshold ct ox oy file (k + 1) r
      (.capture k :: .matchTemplate k :: .sleepDelay k ::
        .logAttempt k (env.score k) :: rest.1, rest.2)

/-- `_execute_image_right_click(step, monitor_index)` (the
`image_relative_right_click` handler): `float(params["threshold"])` is a
direct indexing here, `click_type` defaults to `"right"`, and the DPI-scaled
`offset_x`/`offset_y` are added to the match center before clicking. -/
def executeImageRightClick (env : ScreenEnv) (params : Params) :
    List ImgEvent × Option ExecError :=
  match (do
    let path ← reqStr params "path"
    let threshold ← reqFloat params "threshold"
    let ox ← reqInt params "offset_x"
    let oy ← reqInt params "offset_y"
    let retry ← reqInt params "retry"
    let _delay ← getFloat params "delay"
    Except.ok (path, threshold, ox, oy, retry) :
      Except ExecError (String × ℚ × ℤ × ℤ × ℤ)) with
  | .error e => ([], some (.imageRightClickFailed e))
  | .ok (path, threshold, ox, oy, retry) =>
    let ct := clickTypeOf params "right"
    if env.decodeOk = false then
      ([], some (.imageRightClickFailed (.decodeError path)))
    else
      let res := imgAttemptsR env threshold ct ox oy (pyBasename path) 0
        (retry + 1).toNat
      (res.1, res.2.map .imageRightClickFailed)

/-! ## Command safety (`_validate_command_safety`)

The denylist is a list of Python regular expressions searched (unanchored)
in the lowercased command.  The constructs those patterns use — literals,
`\s`, `\d`, `.`, character sets and ranges, `*`, `+`, alternation and `$` —
are given an executable backtracking matcher below, with Python `re`
semantics (`.` excludes newline; `$` matches at the end of the string or
before a final newline). -/

/-- A single-character matcher: explicit set, range, `\s`, `\d` or `.`. -/
inductive CharCls where
  | set (cs : List Char)
  | rng (lo hi : Char)
  | space
  | digit
  | dot
  deriving DecidableEq, Repr

/-- Whether a character matches a character class. -/
def CharCls.test : CharCls → Char → Bool
  | .set cs, c => cs.contains c
  | .rng lo hi, c => decide (lo ≤ c ∧ c ≤ hi)
  | .space, c => pyIsSpace c
  | .digit, c => c.isDigit
  | .dot, c => c != '\n'

/-- The regular-expression fragment used by the denylist patterns. -/
inductive RE where
  | eps
  | eos
  | lit (s : List Char)
  | one (cc : CharCls)
  | star (cc : CharCls)
  | plus (cc : CharCls)
  | seq (a b : RE)
  | alt (a b : RE)
  deriving DecidableEq, Repr

/-- All remainders obtainable by consuming zero or more `cc`-characters. -/
def starRems (cc : CharCls) : List Char → List (List Char)
  | [] => [[]]
  | c :: rest =>
    (c :: rest) :: (if cc.test c then starRems cc rest else [])

/-- All remainders of the input after a match of the regular expression at
its start (backtracking: the list enumerates every alternative). -/
def reMatch : RE → List Char → List (List Char)
  | .eps, s => [s]
  | .eos, s => if s = [] ∨ s = ['\n'] then [s] else []
  | .lit l, s => if l.isPrefixOf s then [s.drop l.length] else []
  | .one _, [] => []
  | .one cc, c :: rest => if cc.test c then [rest] else []
  | .star cc, s => starRems cc s
  | .plus _, [] => []
  | .plus cc, c :: rest => if cc.test c then starRems cc rest else []
  | .seq a b, s => (reMatch a s).flatMap (reMatch b)
  | .alt a b, s => reMatch a s ++ reMatch b s

/-- Whether the pattern matches starting at some position of the suffix. -/
def searchAux (r : RE) : List Char → Bool
  | [] => !(reMatch r []).isEmpty
  | c :: rest => !(reMatch r (c :: rest)).isEmpty || searchAux r rest

/-- `re.search(pattern, s)` as a boolean. -/
def reSearch (r : RE) (s : String) : Bool := searchAux r s.data

/-- A literal pattern piece. -/
def lit (s : String) : RE := .lit s.data

/-- Concatenation of pattern pieces. -/
def cat (rs : List RE) : RE := rs.foldr .seq .eps

/-- `\s+`. -/
def sp : RE := .plus .space

/-- `\s*`. -/
def sp0 : RE := .star .space

/-- `.*`. -/
def anyc : RE := .star .dot

/-- The `dangerous_patterns` list of `_validate_command_safety`, in source
order; each entry embeds the Python regex shown in its comment. -/
def dangerousPatterns : List RE := [
  -- r'del\s+.*(/[sq]|\\|\*)'
  cat [lit "del", sp, anyc,
    .alt (cat [lit "/", .one (.set ['s', 'q'])]) (.alt (lit "\\") (lit "*"))],
  -- r'rmdir\s+.*(/s|/q)'
  cat [lit "rmdir", sp, anyc, .alt (lit "/s") (lit "/q")],
  -- r'rd\s+.*(/s|/q)'
  cat [lit "rd", sp, anyc, .alt (lit "/s") (lit "/q")],
  -- r'erase\s+.*(\*|\\)'
  cat [lit "erase", sp, anyc, .alt (lit "*") (lit "\\")],
  -- r'remove-item\s+.*(-recurse|-force)'
  cat [lit "remove-item", sp, anyc, .alt (lit "-recurse") (lit "-force")],
  -- r'format\s+[a-z]:'
  cat [lit "format", sp, .one (.rng 'a' 'z'), lit ":"],
  -- r'fdisk\s+'
  cat [lit "fdisk", sp],
  -- r'diskpart\s*$'
  cat [lit "diskpart", sp0, .eos],
  -- r'bootrec\s+'
  cat [lit "bootrec", sp],
  -- r'bcdedit\s+'
  cat [lit "bcdedit", sp],
  -- r'shutdown\s+.*(/[rs]|/[fth])'
  cat [lit "shutdown", sp, anyc,
    .alt (cat [lit "/", .one (.set ['r', 's'])])
         (cat [lit "/", .one (.set ['f', 't', 'h'])])],
  -- r'restart-computer'
  lit "restart-computer",
  -- r'stop-computer'
  lit "stop-computer",
  -- r'netsh\s+'
  cat [lit "netsh", sp],
  -- r'netstat\s+.*(-a|-n)'
  cat [lit "netstat", sp, anyc, .alt (lit "-a") (lit "-n")],
  -- r'arp\s+(-[ads])'
  cat [lit "arp", sp, lit "-", .one (.set ['a', 'd', 's'])],
  -- r'reg\s+(delete|add|import)'
  cat [lit "reg", sp, .alt (lit "delete") (.alt (lit "add") (lit "import"))],
  -- r'regedit\s+(/[si])'
  cat [lit "regedit", sp, lit "/", .one (.set ['s', 'i'])],
  -- r'sc\s+(delete|create|config)'
  cat [lit "sc", sp, .alt (lit "delete") (.alt (lit "create") (lit "config"))],
  -- r'net\s+(start|stop|user)'
  cat [lit "net", sp, .alt (lit "start") (.alt (lit "stop") (lit "user"))],
  -- r'wmic\s+'
  cat [lit "wmic", sp],
  -- r'taskkill\s+.*(/f|/im)'
  cat [lit "taskkill", sp, anyc, .alt (lit "/f") (lit "/im")],
  -- r'tskill\s+'
  cat [lit "tskill", sp],
  -- r'stop-process\s+.*-force'
  cat [lit "stop-process", sp, anyc, lit "-force"],
  -- r'powershell\s.*(-encodedcommand|-enc|-ep\s+bypass)'
  cat [lit "powershell", .one .space, anyc,
    .alt (lit "-encodedcommand") (.alt (lit "-enc") (cat [lit "-ep", sp, lit "bypass"]))],
  -- r'invoke-expression\s*\('
  cat [lit "invoke-expression", sp0, lit "("],
  -- r'iex\s*\('
  cat [lit "iex", sp0, lit "("],
  -- r'invoke-webrequest.*downloadfile'
  cat [lit "invoke-webrequest", anyc, lit "downloadfile"],
  -- r'start-process\s+.*-windowstyle\s+hidden'
  cat [lit "start-process", sp, anyc, lit "-windowstyle", sp, lit "hidden"],
  -- r'schtasks\s+.*(/create|/delete)'
  cat [lit "schtasks", sp, anyc, .alt (lit "/create") (lit "/delete")],
  -- r'at\s+\d+:\d+'
  cat [lit "at", sp, .plus .digit, lit ":", .plus .digit],
  -- r'netsh\s+advfirewall'
  cat [lit "netsh", sp, lit "advfirewall"],
  -- r'netsh\s+firewall'
  cat [lit "netsh", sp, lit "firewall"],
  -- r'[;&|`]\s*(del|rmdir|rd|format|shutdown)'
  cat [.one (.set [';', '&', '|', Char.ofNat 96]), sp0,
    .alt (lit "del") (.alt (lit "rmdir")
      (.alt (lit "rd") (.alt (lit "format") (lit "shutdown"))))],
  -- r'\|\s*(del|rmdir|rd|format)'
  cat [lit "|", sp0,
    .alt (lit "del") (.alt (lit "rmdir") (.alt (lit "rd") (lit "format")))],
  -- r'attrib\s+.*\+[hs]'
  cat [lit "attrib", sp, anyc, lit "+", .one (.set ['h', 's'])],
  -- r'icacls\s+.*(/deny|/remove)'
  cat [lit "icacls", sp, anyc, .alt (lit "/deny") (lit "/remove")],
  -- r'cmd\s+/c\s+.*(\||&)'
  cat [lit "cmd", sp, lit "/c", sp, anyc, .alt (lit "|") (lit "&")],
  -- r'start\s+/min'
  cat [lit "start", sp, lit "/min"]]

/-- `_validate_command_safety(command)`: search every denylist pattern in the
lowercased command, then reject control characters other than tab, newline
and carriage return (`ord(c) < 32 and c not in ['\t', '\n', '\r']`). -/
def validateCommandSafety (command : String) : Bool :=
  if dangerousPatterns.any (fun p => reSearch p (pyLower command)) then false
  else if command.data.any
      (fun c => decide (c.toNat < 32) && !(['\t', '\n', '\r'].contains c)) then
    false
  else true

/-! ## Command execution (`_execute_cmd_command`) -/

/-- The outcome of the external process, an oracle of the environment. -/
inductive ProcResult where
  | done (exitCode : ℤ) (stdout stderr : String)
  | timedOut
  deriving DecidableEq, Repr

/-- An observable event of `_execute_cmd_command`: a scheduled-time wait, a
blocking `subprocess.run`, a fire-and-forget `subprocess.Popen`, or the
result dialog. -/
inductive CmdEvent where
  | scheduledWait (t : String)
  | spawnWait (cmd : String) (timeout : ℚ)
  | spawnNoWait (cmd : String)
  | showInfo
  deriving DecidableEq, Repr

/-- `_execute_cmd_command(step)`: read `command`, `timeout` (default 30),
`wait_completion` (default `True`, by truthiness) and `scheduled_time`; run
the safety check; optionally wait for the scheduled time (returning without
spawning when interrupted); then either block on `subprocess.run` — wrapping
a non-zero exit into a failure and raising the timeout error unwrapped — or
fire-and-forget with `subprocess.Popen`.  Failures raised inside the `try`
are re-wrapped by the outer `except Exception`. -/
def executeCmdCommand (params : Params) (proc : ProcResult)
    (scheduleInterrupted : Bool) : List CmdEvent × Option ExecError :=
  match Params.get params "command" with
  | none => ([], some (.cmdCommandFailed (.keyError "command")))
  | some (.str command) =>
    let timeout := match Params.get params "timeout" with
      | some v => (pyFloat v).getD 30
      | none => 30
    let waitCompletion := match Params.get params "wait_completion" with
      | some v => pyTruthy v
      | none => true
    let scheduled : Option String := match Params.get params "scheduled_time" with
      | some (.str t) => if t = "" then none else some t
      | _ => none
    if validateCommandSafety command = false then
      ([], some (.cmdCommandFailed (.unsafeCommand ⟨command.data.take 100⟩)))
    else
      let pre := match scheduled with
        | some t => [CmdEvent.scheduledWait t]
        | none => []
      if scheduled.isSome ∧ scheduleInterrupted then (pre, none)
      else if waitCompletion then
        match proc with
        | .timedOut => (pre ++ [.spawnWait command timeout], some (.cmdTimeout timeout))
        | .done exitCode stdout stderr =>
          if exitCode = 0 then
            (pre ++ [.spawnWait command timeout] ++
              (if pyStrip stdout ≠ "" then [.showInfo] else []), none)
          else
            (pre ++ [.spawnWait command timeout],
              some (.cmdCommandFailed (.cmdFailed exitCode stderr)))
      else (pre ++ [.spawnNoWait command], none)
  | some _ => ([], some (.cmdCommandFailed (.typeError "command")))

/-! ## Concrete steps, predicates and trace helpers used by the theorems -/

/-- A `repeat_start` step as the repeat dialog builds it. -/
def repeatStartStep (count : ℤ) : Step :=
  { type := "repeat_start", params := [("count", .int count)], comment := "" }

/-- A `repeat_end` step. -/
def repeatEndStep : Step :=
  { type := "repeat_end", params := [], comment := "" }

/-- A plain key step. -/
def keyStep (k : String) : Step :=
  { type := "key", params := [("key", .str k)], comment := "" }

/-- Index `i` holds a `repeat_start` whose matching-end scan over the rest of
the sequence never returns to depth 0 — the structural-error condition. -/
def unmatchedStart (steps : List Step) (i : ℕ) : Prop :=
  (stepAt steps i).type = "repeat_start" ∧
    (findEnd steps steps.length (i + 1) 1).2 ≠ 0

instance unmatchedStartDec (steps : List Step) (i : ℕ) :
    Decidable (unmatchedStart steps i) := by
  unfold unmatchedStart
  infer_instance

/-- Number of capture-and-match attempts recorded in a handler trace. -/
def captureCount (evs : List ImgEvent) : ℕ :=
  (evs.filter (fun ev => match ev with | .capture _ => true | _ => false)).length

/-- The parameter bag of an `image_click` step without a `click_type`. -/
def imgParams (path : String) (th : ℚ) (r : ℤ) (d : ℚ) : Params :=
  [("path", .str path), ("threshold", .float th), ("retry", .int r),
   ("delay", .float d)]

/-- The parameter bag of an `image_relative_right_click` step without a
`click_type`. -/
def imgParamsR (path : String) (th : ℚ) (ox oy r : ℤ) (d : ℚ) : Params :=
  [("path", .str path), ("threshold", .float th), ("offset_x", .int ox),
   ("offset_y", .int oy), ("retry", .int r), ("delay", .float d)]

/-- A screen environment whose best score is exactly `1` on every attempt
(matching a threshold of `1` exactly). -/
def testEnvHit : ScreenEnv :=
  { running := fun _ => true, captureOk := fun _ => true,
    score := fun _ => 1, loc := fun _ => (10, 20), tmplW := 8, tmplH := 6,
    decodeOk := true, minX := 0, minY := 0, dpiScale := 100 }

/-- A screen environment whose best score stays at `0`, below any positive
threshold, on every attempt. -/
def testEnvMiss : ScreenEnv :=
  { running := fun _ => true, captureOk := fun _ => true,
    score := fun _ => 0, loc := fun _ => (10, 20), tmplW := 8, tmplH := 6,
    decodeOk := true, minX := 0, minY := 0, dpiScale := 100 }

/-- A screen environment in which the run has been cancelled before the first
attempt (`self.running` reads `False`). -/
def testEnvCancel : ScreenEnv :=
  { running := fun _ => false, captureOk := fun _ => true,
    score := fun _ => 0, loc := fun _ => (10, 20), tmplW := 8, tmplH := 6,
    decodeOk := true, minX := 0, minY := 0, dpiScale := 100 }

/-- A persisted record whose kind is not one of the recognized step kinds. -/
def badKindRecord : StepRecord :=
  { type := some "definitely_not_a_kind", params := some [], comment := some "" }

/-- The step `Step.from_dict` builds from `badKindRecord`. -/
def badKindStep : Step :=
  { type := "definitely_not_a_kind", params := [], comment := "",
    created_at := "", enabled := true }

/-- A legacy persisted `image_click` record with no `click_type` key. -/
def legacyImageClickRecord : StepRecord :=
  { type := some "image_click",
    params := some (imgParams "img/button.png" 1 2 1),
    comment := some "" }

/-- The step `Step.from_dict` builds from `legacyImageClickRecord`. -/
def legacyImageClickStep : Step :=
  { type := "image_click", params := imgParams "img/button.png" 1 2 1,
    comment := "", created_at := "", enabled := true }

/-- An application state with a run already active (one worker thread). -/
def runningState : AppState :=
  { running := true, loop_count := 1, runButtonEnabled := false,
    stopButtonEnabled := true, workerThreads := 1 }

/-- Add an offset to a plan entry's step index, keeping the nest level. -/
def shiftEntry (o : ℕ) (pe : PlanEntry) : PlanEntry := (pe.1 + o, pe.2)

/-- Add an offset to every step index of an expansion result (also to the
index an error names). -/
def shiftExcept (o : ℕ) : Except ℕ Plan → Except ℕ Plan
  | .error j => .error (j + o)
  | .ok p => .ok (p.map (shiftEntry o))

/-! ## Structural properties of the matching-end scan

The scan counts `repeat_start`/`repeat_end` markers; `depthSum` is the signed
count over an index interval, the quantity the while-loop maintains. -/

/-- The contribution of one scanned position to `nest_depth`. -/
def stepDelta (steps : List Step) (t : ℕ) : ℤ :=
  if (stepAt steps t).type = "repeat_start" then 1
  else if (stepAt steps t).type = "repeat_end" then -1
  else 0

/-- Sum of `stepDelta` over the interval `[p, p + n)`. -/
def depthSum (steps : List Step) (p : ℕ) : ℕ → ℤ
  | 0 => 0
  | n + 1 => depthSum steps p n + stepDelta steps (p + n)

theorem stepDelta_rs (steps : List Step) (t : ℕ)
    (h : (stepAt steps t).type = "repeat_start") : stepDelta steps t = 1 := by
  simp [stepDelta, h]

theorem stepDelta_ge (steps : List Step) (t : ℕ) : -1 ≤ stepDelta steps t := by
  unfold stepDelta
  split <;> [omega; skip]
  split <;> omega

theorem type_of_delta_neg (steps : List Step) (t : ℕ)
    (h : stepDelta steps t < 0) : (stepAt steps t).type = "repeat_end" := by
  by_contra hne
  unfold stepDelta at h
  by_cases h1 : (stepAt steps t).type = "repeat_start" <;> simp [h1, hne] at h

theorem depthSum_shift (steps : List Step) (p a : ℕ) :
    ∀ b, depthSum steps p (a + b) = depthSum steps p a + depthSum steps (p + a) b := by
  intro b
  induction b with
  | zero => simp [depthSum]
  | succ b ih =>
    have h1 : a + (b + 1) = (a + b) + 1 := by omega
    have h2 : p + (a + b) = p + a + b := by omega
    rw [h1]
    show depthSum steps p (a + b) + stepDelta steps (p + (a + b)) = _
    rw [ih, h2]
    show _ = depthSum steps p a + (depthSum steps (p + a) b + stepDelta steps (p + a + b))
    ring

theorem depthSum_one (steps : List Step) (p : ℕ) :
    depthSum steps p 1 = stepDelta steps p := by
  simp [depthSum]

/-- A scan at depth 0 stops immediately. -/
theorem findEndGo_zero_depth (steps : List Step) (e : ℕ) :
    ∀ fuel pos, findEndGo steps e fuel pos 0 = (pos, 0) := by
  intro fuel pos
  cases fuel <;> simp [findEndGo]

/-- Completeness of the scan: a first zero-crossing of the depth at distance
`n` within the fuel window is found, and the scan stops right after it. -/
theorem findEndGo_reaches (steps : List Step) (e : ℕ) :
    ∀ n fuel pos (d : ℕ), pos + fuel = e → 0 < d → n ≤ fuel →
    (d : ℤ) + depthSum steps pos n = 0 →
    (∀ m, m < n → 0 < (d : ℤ) + depthSum steps pos m) →
    findEndGo steps e fuel pos d = (pos + n, 0) := by
  intro n
  induction n with
  | zero =>
    intro fuel pos d _ hd _ hsum _
    simp [depthSum] at hsum
    omega
  | succ m ih =>
    intro fuel pos d hinv hd hnf hsum hfirst
    obtain ⟨f, rfl⟩ : ∃ f, fuel = f + 1 := ⟨fuel - 1, by omega⟩
    have hpos : pos < e := by omega
    have hunf : findEndGo steps e (f + 1) pos d =
        findEndGo steps e f (pos + 1)
          (if (stepAt steps pos).type = "repeat_start" then d + 1
           else if (stepAt steps pos).type = "repeat_end" then d - 1 else d) := by
      rw [findEndGo, if_pos ⟨hpos, hd⟩]
    rw [hunf]
    have hδ : ((if (stepAt steps pos).type = "repeat_start" then d + 1
        else if (stepAt steps pos).type = "repeat_end" then d - 1 else d : ℕ) : ℤ)
        = (d : ℤ) + stepDelta steps pos := by
      unfold stepDelta
      by_cases h1 : (stepAt steps pos).type = "repeat_start"
      · simp [h1]
      · by_cases h2 : (stepAt steps pos).type = "repeat_end" <;> (simp [h1, h2]; try omega)
    set d' : ℕ := if (stepAt steps pos).type = "repeat_start" then d + 1
        else if (stepAt steps pos).type = "repeat_end" then d - 1 else d with hd'def
    have hsum' : (d' : ℤ) + depthSum steps (pos + 1) m = 0 := by
      have := depthSum_shift steps pos 1 m
      rw [depthSum_one] at this
      have harg : 1 + m = m + 1 := by omega
      rw [harg] at this
      rw [hδ]
      omega
    by_cases hz : d' = 0
    · have hm0 : m = 0 := by
        by_contra hm
        have h1 := hfirst 1 (by omega)
        rw [depthSum_one] at h1
        rw [hz] at hδ
        simp at hδ
        omega
      subst hm0
      rw [hz, findEndGo_zero_depth]
    · have hd'pos : 0 < d' := by omega
      have hres := ih f (pos + 1) d' (by omega) hd'pos (by omega) hsum'
        (fun k hk => by
          have := hfirst (k + 1) (by omega)
          have hsh := depthSum_shift steps pos 1 k
          rw [depthSum_one] at hsh
          have harg : 1 + k = k + 1 := by omega
          rw [harg] at hsh
          rw [hδ]
          omega)
      rw [hres]
      have : pos + 1 + m = pos + (m + 1) := by omega
      rw [this]

/-- Soundness of the scan: if it stops at depth 0, the stopping point is the
first zero-crossing of the depth. -/
theorem findEndGo_stopped (steps : List Step) (e : ℕ) :
    ∀ fuel pos (d : ℕ), pos + fuel = e → 0 < d →
    (findEndGo steps e fuel pos d).2 = 0 →
    ∃ n, 0 < n ∧ n ≤ fuel ∧ findEndGo steps e fuel pos d = (pos + n, 0) ∧
      (d : ℤ) + depthSum steps pos n = 0 ∧
      ∀ m, m < n → 0 < (d : ℤ) + depthSum steps pos m := by
  intro fuel
  induction fuel with
  | zero =>
    intro pos d _ hd h
    simp [findEndGo] at h
    omega
  | succ f ih =>
    intro pos d hinv hd h
    have hpos : pos < e := by omega
    have hunf : findEndGo steps e (f + 1) pos d =
        findEndGo steps e f (pos + 1)
          (if (stepAt steps pos).type = "repeat_start" then d + 1
           else if (stepAt steps pos).type = "repeat_end" then d - 1 else d) := by
      rw [findEndGo, if_pos ⟨hpos, hd⟩]
    rw [hunf] at h ⊢
    have hδ : ((if (stepAt steps pos).type = "repeat_start" then d + 1
        else if (stepAt steps pos).type = "repeat_end" then d - 1 else d : ℕ) : ℤ)
        = (d : ℤ) + stepDelta steps pos := by
      unfold stepDelta
      by_cases h1 : (stepAt steps pos).type = "repeat_start"
      · simp [h1]
      · by_cases h2 : (stepAt steps pos).type = "repeat_end" <;> (simp [h1, h2]; try omega)
    set d' : ℕ := if (stepAt steps pos).type = "repeat_start" then d + 1
        else if (stepAt steps pos).type = "repeat_end" then d - 1 else d with hd'def
    by_cases hz : d' = 0
    · rw [hz] at h ⊢
      rw [findEndGo_zero_depth]
      refine ⟨1, by omega, by omega, rfl, ?_, ?_⟩
      · rw [depthSum_one]
        rw [hz] at hδ
        simp at hδ
        omega
      · intro k hk
        have : k = 0 := by omega
        subst this
        simp [depthSum]
        omega
    · have hd'pos : 0 < d' := by omega
      obtain ⟨n', hn'0, hn'f, hres, hsum', hfirst'⟩ := ih (pos + 1) d' (by omega) hd'pos h
      have hsh : ∀ k, depthSum steps pos (k + 1) =
          stepDelta steps pos + depthSum steps (pos + 1) k := by
        intro k
        have := depthSum_shift steps pos 1 k
        rw [depthSum_one] at this
        have harg : 1 + k = k + 1 := by omega
        rw [harg] at this
        omega
      refine ⟨n' + 1, by omega, by omega, ?_, ?_, ?_⟩
      · rw [hres]
        have : pos + 1 + n' = pos + (n' + 1) := by omega
        rw [this]
      · rw [hsh n']
        rw [hδ] at hsum'
        omega
      · intro m hm
        cases m with
        | zero => simp [depthSum]; omega
        | succ k =>
          have := hfirst' k (by omega)
          rw [hsh k]
          rw [hδ] at this
          omega

/-- Discrete intermediate-value argument for down-steps bounded by one: a
sequence that starts positive and later becomes non-positive has a first
exact zero. -/
theorem first_crossing (f : ℕ → ℤ) (N : ℕ)
    (hstep : ∀ m, f m - 1 ≤ f (m + 1)) (h0 : 0 < f 0) (hN : f N ≤ 0) :
    ∃ n, n ≤ N ∧ f n = 0 ∧ ∀ m, m < n → 0 < f m := by
  have hex : ∃ n, f n ≤ 0 := ⟨N, hN⟩
  have hn : f (Nat.find hex) ≤ 0 := Nat.find_spec hex
  have hmin : ∀ m, m < Nat.find hex → ¬f m ≤ 0 := fun m hm => Nat.find_min hex hm
  have hnN : Nat.find hex ≤ N := Nat.find_min' hex hN
  have hn0 : Nat.find hex ≠ 0 := by
    intro hh
    rw [hh] at hn
    omega
  obtain ⟨k, hk⟩ : ∃ k, Nat.find hex = k + 1 := ⟨Nat.find hex - 1, by omega⟩
  have hfk : ¬f k ≤ 0 := hmin k (by omega)
  have hstepk := hstep k
  rw [← hk] at hstepk
  exact ⟨Nat.find hex, hnN, by omega, fun m hm => by have := hmin m hm; omega⟩

/-- The Dyck property of a matched scan region: every `repeat_start` strictly
inside the region has its own first zero-crossing strictly inside it. -/
theorem inner_scan_success (steps : List Step) (p n₀ j : ℕ)
    (hsum : (1 : ℤ) + depthSum steps p n₀ = 0)
    (hfirst : ∀ m, m < n₀ → 0 < (1 : ℤ) + depthSum steps p m)
    (hpj : p ≤ j) (hjb : j + 2 ≤ p + n₀)
    (hrs : (stepAt steps j).type = "repeat_start") :
    ∃ n₁, 0 < n₁ ∧ j + 1 + n₁ + 1 ≤ p + n₀ ∧
      (1 : ℤ) + depthSum steps (j + 1) n₁ = 0 ∧
      ∀ m, m < n₁ → 0 < (1 : ℤ) + depthSum steps (j + 1) m := by
  set a := j - p with ha
  have hja : j = p + a := by omega
  have han : a + 2 ≤ n₀ := by omega
  have hT : ∀ m, (1 : ℤ) + depthSum steps (j + 1) m =
      1 + depthSum steps p (a + 1 + m) - depthSum steps p (a + 1) := by
    intro m
    have := depthSum_shift steps p (a + 1) m
    have harg : p + (a + 1) = j + 1 := by omega
    rw [harg] at this
    omega
  have hSa1 : depthSum steps p (a + 1) = depthSum steps p a + 1 := by
    have := depthSum_shift steps p a 1
    rw [depthSum_one] at this
    have harg : p + a = j := by omega
    rw [harg, stepDelta_rs steps j hrs] at this
    omega
  have hSapos : 0 ≤ depthSum steps p a := by
    have := hfirst a (by omega)
    omega
  obtain ⟨n₁, hn₁N, hT0, hTfirst⟩ :=
    first_crossing (fun m => (1 : ℤ) + depthSum steps (j + 1) m) (n₀ - a - 1)
      (fun m => by
        show (1 : ℤ) + depthSum steps (j + 1) m - 1 ≤
          1 + depthSum steps (j + 1) (m + 1)
        have h1 := hT m
        have h2 := hT (m + 1)
        have hsh : depthSum steps p (a + 1 + (m + 1)) =
            depthSum steps p (a + 1 + m) + stepDelta steps (p + (a + 1 + m)) := by
          have harg : a + 1 + (m + 1) = (a + 1 + m) + 1 := by omega
          rw [harg]
          rfl
        have := stepDelta_ge steps (p + (a + 1 + m))
        omega)
      (by
        show (0 : ℤ) < 1 + depthSum steps (j + 1) 0
        simp [depthSum])
      (by
        show (1 : ℤ) + depthSum steps (j + 1) (n₀ - a - 1) ≤ 0
        have h1 := hT (n₀ - a - 1)
        have harg : a + 1 + (n₀ - a - 1) = n₀ := by omega
        rw [harg] at h1
        omega)
  have hT0' : (1 : ℤ) + depthSum steps (j + 1) n₁ = 0 := hT0
  have hTfirst' : ∀ m, m < n₁ → 0 < (1 : ℤ) + depthSum steps (j + 1) m := hTfirst
  have hn₁0 : 0 < n₁ := by
    rcases Nat.eq_zero_or_pos n₁ with h | h
    · rw [h] at hT0'
      simp [depthSum] at hT0'
    · exact h
  have hn₁N' : n₁ < n₀ - a - 1 := by
    rcases Nat.lt_or_ge n₁ (n₀ - a - 1) with h | h
    · exact h
    · exfalso
      have hEq : n₁ = n₀ - a - 1 := by omega
      have h1 := hT (n₀ - a - 1)
      have harg : a + 1 + (n₀ - a - 1) = n₀ := by omega
      rw [harg] at h1
      rw [hEq] at hT0'
      omega
  exact ⟨n₁, hn₁0, by omega, hT0', hTfirst'⟩

/-- Wrapper of `findEndGo_stopped` for `findEnd` as called by the expander. -/
theorem findEnd_decomp (steps : List Step) (e i : ℕ) (hie : i + 1 ≤ e)
    (h : (findEnd steps e (i + 1) 1).2 = 0) :
    ∃ n₀, 0 < n₀ ∧ i + 1 + n₀ ≤ e ∧ findEnd steps e (i + 1) 1 = (i + 1 + n₀, 0) ∧
      (1 : ℤ) + depthSum steps (i + 1) n₀ = 0 ∧
      ∀ m, m < n₀ → 0 < (1 : ℤ) + depthSum steps (i + 1) m := by
  unfold findEnd at h ⊢
  obtain ⟨n, hn0, hnf, hres, hsum, hfirst⟩ :=
    findEndGo_stopped steps e (e - (i + 1)) (i + 1) 1 (by omega) (by omega) h
  exact ⟨n, hn0, by omega, hres, by simpa using hsum, fun m hm => by
    have := hfirst m hm
    simpa using this⟩

/-- Wrapper of `findEndGo_reaches` for `findEnd`: a first zero-crossing within
the window is found by the scan, for any window reaching past it. -/
theorem findEnd_of_crossing (steps : List Step) (E j n : ℕ)
    (hle : j + 1 + n ≤ E) (hn0 : 0 < n)
    (hsum : (1 : ℤ) + depthSum steps (j + 1) n = 0)
    (hfirst : ∀ m, m < n → 0 < (1 : ℤ) + depthSum steps (j + 1) m) :
    findEnd steps E (j + 1) 1 = (j + 1 + n, 0) := by
  unfold findEnd
  exact findEndGo_reaches steps E n (E - (j + 1)) (j + 1) 1 (by omega) (by omega)
    (by omega) (by simpa using hsum) (fun m hm => by
      have := hfirst m hm
      simpa using this)

theorem except_bind_ok {ε α β : Type} (a : α) (f : α → Except ε β) :
    (Except.ok a >>= f) = f a := rfl

theorem except_bind_error {ε α β : Type} (e : ε) (f : α → Except ε β) :
    ((Except.error e : Except ε α) >>= f) = .error e := rfl

theorem except_map_ok {ε α β : Type} (a : α) (f : α → β) :
    (Except.ok a : Except ε α).map f = .ok (f a) := rfl

theorem except_map_error {ε α β : Type} (e : ε) (f : α → β) :
    (Except.error e : Except ε α).map f = .error e := rfl

/-- An error of the repeat-iteration loop comes from some body expansion. -/
theorem repeatIters_error (body : ℕ → Except ℕ Plan) (ep nl : ℕ) :
    ∀ k it j, repeatIters body ep nl k it = .error j → ∃ lvl, body lvl = .error j := by
  intro k
  induction k with
  | zero => intro it j h; exact Except.noConfusion h
  | succ k ih =>
    intro it j h
    rw [repeatIters] at h
    cases hb : body (nl + it + 1) with
    | error j0 =>
      rw [hb, except_bind_error] at h
      injection h with hj
      exact ⟨nl + it + 1, by rw [hb, hj]⟩
    | ok inner =>
      rw [hb, except_bind_ok] at h
      cases hr : repeatIters body ep nl k (it + 1) with
      | error j1 =>
        rw [hr, except_bind_error] at h
        injection h with hj
        exact ih (it + 1) j (by rw [hr, hj])
      | ok rest =>
        rw [hr, except_bind_ok] at h
        exact Except.noConfusion h

/-- If expansion of a window succeeds, every `repeat_start` in the window has
a matching `repeat_end`: its own scan reaches depth 0, for any scan window
that extends at least to the end of the expanded window. -/
theorem expandF_ok_matched (steps : List Step) :
    ∀ fuel i e nl p, e - i ≤ fuel → expandF steps fuel i e nl = .ok p →
    ∀ j, i ≤ j → j < e → (stepAt steps j).type = "repeat_start" →
    ∀ E, e ≤ E → (findEnd steps E (j + 1) 1).2 = 0 := by
  intro fuel
  induction fuel with
  | zero =>
    intro i e nl p hf _ j hij hje _ E _
    omega
  | succ f ih =>
    intro i e nl p hf hok j hij hje hjrs E hE
    by_cases hi : i < e
    case neg => omega
    simp only [expandF] at hok
    rw [if_pos hi] at hok
    by_cases ht : (stepAt steps i).type = "repeat_start"
    · rw [if_pos ht] at hok
      by_cases hscan : (findEnd steps e (i + 1) 1).2 = 0
      case neg => rw [if_neg hscan] at hok; exact Except.noConfusion hok
      rw [if_pos hscan] at hok
      obtain ⟨n₀, hn₀0, hn₀e, hres, hsum, hfirst⟩ :=
        findEnd_decomp steps e i (by omega) hscan
      obtain ⟨m₀, rfl⟩ : ∃ m₀, n₀ = m₀ + 1 := ⟨n₀ - 1, by omega⟩
      have hep : (findEnd steps e (i + 1) 1).1 - 1 = i + m₀ + 1 := by
        rw [hres]
        show i + 1 + (m₀ + 1) - 1 = i + m₀ + 1
        omega
      rw [hep] at hok
      cases hIt : repeatIters
          (fun lvl => expandF steps f (i + 1) (i + m₀ + 1) lvl) (i + m₀ + 1) nl
          (getCount (stepAt steps i).params).toNat 0 with
      | error j0 => rw [hIt, except_bind_error] at hok; exact Except.noConfusion hok
      | ok iters =>
        rw [hIt, except_bind_ok] at hok
        cases hR : expandF steps f (i + m₀ + 1 + 1) e nl with
        | error j1 => rw [hR, except_bind_error] at hok; exact Except.noConfusion hok
        | ok rest =>
          by_cases hji : j = i
          · subst hji
            have := findEnd_of_crossing steps E j (m₀ + 1) (by omega) (by omega)
              hsum hfirst
            rw [this]
          · by_cases hjlt : j < i + m₀ + 1
            · obtain ⟨n₁, hn₁0, hn₁b, hsum₁, hfirst₁⟩ :=
                inner_scan_success steps (i + 1) (m₀ + 1) j hsum hfirst
                  (by omega) (by omega) hjrs
              have := findEnd_of_crossing steps E j n₁ (by omega) hn₁0 hsum₁ hfirst₁
              rw [this]
            · by_cases hje2 : j = i + m₀ + 1
              · exfalso
                have hδ : stepDelta steps (i + 1 + m₀) < 0 := by
                  have h1 := hfirst m₀ (by omega)
                  have h2 : depthSum steps (i + 1) (m₀ + 1) =
                      depthSum steps (i + 1) m₀ + stepDelta steps (i + 1 + m₀) := rfl
                  omega
                have hty := type_of_delta_neg steps (i + 1 + m₀) hδ
                have harg : i + 1 + m₀ = i + m₀ + 1 := by omega
                rw [harg, ← hje2, hjrs] at hty
                exact absurd hty (by decide)
              · exact ih (i + m₀ + 1 + 1) e nl rest (by omega) hR j (by omega) hje hjrs E hE
    · rw [if_neg ht] at hok
      by_cases hte : (stepAt steps i).type = "repeat_end"
      · rw [if_pos hte] at hok
        by_cases hji : j = i
        · rw [hji] at hjrs; exact absurd hjrs ht
        · exact ih (i + 1) e nl p (by omega) hok j (by omega) hje hjrs E hE
      · rw [if_neg hte] at hok
        cases hInner : expandF steps f (i + 1) e nl with
        | error j0 => rw [hInner, except_map_error] at hok; exact Except.noConfusion hok
        | ok q =>
          by_cases hji : j = i
          · rw [hji] at hjrs; exact absurd hjrs ht
          · exact ih (i + 1) e nl q (by omega) hInner j (by omega) hje hjrs E hE

/-- If expansion of a window fails, the reported index is a `repeat_start` in
the window whose matching-end scan (over that window) fails. -/
theorem expandF_error_unmatched (steps : List Step) :
    ∀ fuel i e nl j, e - i ≤ fuel → expandF steps fuel i e nl = .error j →
    i ≤ j ∧ j < e ∧ (stepAt steps j).type = "repeat_start" ∧
      (findEnd steps e (j + 1) 1).2 ≠ 0 := by
  intro fuel
  induction fuel with
  | zero => intro i e nl j _ h; exact Except.noConfusion h
  | succ f ih =>
    intro i e nl j hf h
    by_cases hi : i < e
    case neg =>
      rw [expandF, if_neg hi] at h
      exact Except.noConfusion h
    simp only [expandF] at h
    rw [if_pos hi] at h
    by_cases ht : (stepAt steps i).type = "repeat_start"
    · rw [if_pos ht] at h
      by_cases hscan : (findEnd steps e (i + 1) 1).2 = 0
      · rw [if_pos hscan] at h
        obtain ⟨n₀, hn₀0, hn₀e, hres, hsum, hfirst⟩ :=
          findEnd_decomp steps e i (by omega) hscan
        obtain ⟨m₀, rfl⟩ : ∃ m₀, n₀ = m₀ + 1 := ⟨n₀ - 1, by omega⟩
        have hep : (findEnd steps e (i + 1) 1).1 - 1 = i + m₀ + 1 := by
          rw [hres]
          show i + 1 + (m₀ + 1) - 1 = i + m₀ + 1
          omega
        rw [hep] at h
        cases hIt : repeatIters
            (fun lvl => expandF steps f (i + 1) (i + m₀ + 1) lvl) (i + m₀ + 1) nl
            (getCount (stepAt steps i).params).toNat 0 with
        | error j0 =>
          rw [hIt, except_bind_error] at h
          injection h with hj
          rw [hj] at hIt
          obtain ⟨lvl, hbody⟩ := repeatIters_error _ _ _ _ _ _ hIt
          obtain ⟨h1, h2, h3, h4⟩ := ih (i + 1) (i + m₀ + 1) lvl j (by omega) hbody
          obtain ⟨n₁, hn₁0, hn₁b, hsum₁, hfirst₁⟩ :=
            inner_scan_success steps (i + 1) (m₀ + 1) j hsum hfirst
              (by omega) (by omega) h3
          have := findEnd_of_crossing steps (i + m₀ + 1) j n₁ (by omega) hn₁0
            hsum₁ hfirst₁
          rw [this] at h4
          exact absurd rfl h4
        | ok iters =>
          rw [hIt, except_bind_ok] at h
          cases hR : expandF steps f (i + m₀ + 1 + 1) e nl with
          | error j1 =>
            rw [hR, except_bind_error] at h
            injection h with hj
            rw [hj] at hR
            obtain ⟨h1, h2, h3, h4⟩ := ih (i + m₀ + 1 + 1) e nl j (by omega) hR
            exact ⟨by omega, h2, h3, h4⟩
          | ok rest =>
            rw [hR, except_bind_ok] at h
            exact Except.noConfusion h
      · rw [if_neg hscan] at h
        injection h with hj
        rw [← hj]
        exact ⟨le_refl i, hi, ht, hscan⟩
    · rw [if_neg ht] at h
      by_cases hte : (stepAt steps i).type = "repeat_end"
      · rw [if_pos hte] at h
        obtain ⟨h1, h2, h3, h4⟩ := ih (i + 1) e nl j (by omega) h
        exact ⟨by omega, h2, h3, h4⟩
      · rw [if_neg hte] at h
        cases hInner : expandF steps f (i + 1) e nl with
        | error j0 =>
          rw [hInner, except_map_error] at h
          injection h with hj
          rw [hj] at hInner
          obtain ⟨h1, h2, h3, h4⟩ := ih (i + 1) e nl j (by omega) hInner
          exact ⟨by omega, h2, h3, h4⟩
        | ok q =>
          rw [hInner, except_map_ok] at h
          exact Except.noConfusion h

/-! ## Relating the two expanders (offset shift) -/

theorem shiftExcept_zero (x : Except ℕ Plan) : shiftExcept 0 x = x := by
  cases x with
  | error j => rfl
  | ok p =>
    simp only [shiftExcept, Except.ok.injEq]
    induction p with
    | nil => rfl
    | cons a rest ih => simp [shiftEntry, ih]

theorem repeatIters_shift (o : ℕ) (bodyO body : ℕ → Except ℕ Plan) (ep nl : ℕ)
    (hb : ∀ lvl, bodyO lvl = shiftExcept o (body lvl)) :
    ∀ k it, repeatIters bodyO (ep + o) nl k it =
      shiftExcept o (repeatIters body ep nl k it) := by
  intro k
  induction k with
  | zero => intro it; rfl
  | succ k ih =>
    intro it
    rw [repeatIters, repeatIters, hb (nl + it + 1)]
    cases body (nl + it + 1) with
    | error j0 => rfl
    | ok inner =>
      rw [shiftExcept, except_bind_ok, except_bind_ok, ih (it + 1)]
      cases repeatIters body ep nl k (it + 1) with
      | error j1 => rfl
      | ok rest =>
        rw [shiftExcept, except_bind_ok, except_bind_ok]
        simp [shiftExcept, shiftEntry]

/-- The offset expander is the plain expander with the offset added to every
index (including the one a structural error names). -/
theorem expandFromF_shift (steps : List Step) (o : ℕ) :
    ∀ fuel i e nl, expandFromF steps fuel i e o nl =
      shiftExcept o (expandF steps fuel i e nl) := by
  intro fuel
  induction fuel with
  | zero => intro i e nl; rfl
  | succ f ih =>
    intro i e nl
    simp only [expandFromF, expandF]
    by_cases hi : i < e
    case neg => rw [if_neg hi, if_neg hi]; rfl
    rw [if_pos hi, if_pos hi]
    by_cases ht : (stepAt steps i).type = "repeat_start"
    · rw [if_pos ht, if_pos ht]
      by_cases hscan : (findEnd steps e (i + 1) 1).2 = 0
      case neg => rw [if_neg hscan, if_neg hscan]; rfl
      rw [if_pos hscan, if_pos hscan]
      rw [repeatIters_shift o _ _ ((findEnd steps e (i + 1) 1).1 - 1) nl
        (fun lvl => ih (i + 1) ((findEnd steps e (i + 1) 1).1 - 1) lvl)]
      cases repeatIters
          (fun lvl => expandF steps f (i + 1) ((findEnd steps e (i + 1) 1).1 - 1) lvl)
          ((findEnd steps e (i + 1) 1).1 - 1) nl
          (getCount (stepAt steps i).params).toNat 0 with
      | error j0 => rfl
      | ok iters =>
        rw [shiftExcept, except_bind_ok, except_bind_ok]
        rw [ih ((findEnd steps e (i + 1) 1).1 - 1 + 1) e nl]
        cases expandF steps f ((findEnd steps e (i + 1) 1).1 - 1 + 1) e nl with
        | error j1 => rfl
        | ok rest =>
          rw [shiftExcept, except_bind_ok, except_bind_ok]
          simp [shiftExcept, shiftEntry]
    · rw [if_neg ht, if_neg ht]
      by_cases hte : (stepAt steps i).type = "repeat_end"
      · rw [if_pos hte, if_pos hte]
        exact ih (i + 1) e nl
      · rw [if_neg hte, if_neg hte, ih (i + 1) e nl]
        cases expandF steps f (i + 1) e nl with
        | error j0 => rfl
        | ok q => simp [Except.map, shiftExcept, shiftEntry]

/-! ## Behaviour of the image-search retry loop -/

/-- With parameters of the shapes the dialogs store and a decodable template,
`_execute_image_click` is exactly its attempt loop (with the legacy default
`click_type = "single"`), wrapped by the outer `except`. -/
theorem executeImageClick_run (env : ScreenEnv) (path : String) (th d : ℚ)
    (r : ℤ) (hdec : env.decodeOk = true) :
    executeImageClick env (imgParams path th r d) =
      ((imgAttempts env th "single" (pyBasename path) 0 (r + 1).toNat).1,
       (imgAttempts env th "single" (pyBasename path) 0 (r + 1).toNat).2.map
         .imageClickFailed) := by
  simp [executeImageClick, imgParams, reqStr, getFloat, reqInt, Params.get,
    pyFloat, pyInt, clickTypeOf, hdec, except_bind_ok]

/-- The analogue for `_execute_image_right_click` (default `"right"`). -/
theorem executeImageRightClick_run (env : ScreenEnv) (path : String) (th d : ℚ)
    (ox oy r : ℤ) (hdec : env.decodeOk = true) :
    executeImageRightClick env (imgParamsR path th ox oy r d) =
      ((imgAttemptsR env th "right" ox oy (pyBasename path) 0 (r + 1).toNat).1,
       (imgAttemptsR env th "right" ox oy (pyBasename path) 0 (r + 1).toNat).2.map
         .imageRightClickFailed) := by
  simp [executeImageRightClick, imgParamsR, reqStr, reqFloat, getFloat, reqInt,
    Params.get, pyFloat, pyInt, clickTypeOf, hdec, except_bind_ok]

/-- When every attempt scores below the threshold and the run is not
cancelled, the attempt loop performs exactly its budget of capture-and-match
attempts, logs each attempt's score (the last log entry carrying the final
attempt's score), and ends in the not-found error. -/
theorem imgAttempts_fail (env : ScreenEnv) (th : ℚ) (ct file : String)
    (hrun : ∀ k, env.running k = true) (hcap : ∀ k, env.captureOk k = true)
    (hscore : ∀ k, env.score k < th) :
    ∀ n k, 0 < n →
      (imgAttempts env th ct file k n).2 = some (.notFound file) ∧
      captureCount (imgAttempts env th ct file k n).1 = n ∧
      (imgAttempts env th ct file k n).1.getLast? =
        some (.logAttempt (k + n - 1) (env.score (k + n - 1))) := by
  intro n
  induction n with
  | zero => intro k h; omega
  | succ m ih =>
    intro k _
    have hnr : ¬th ≤ env.score k := not_le.mpr (hscore k)
    rw [imgAttempts]
    simp only [hrun k, hcap k]
    rw [if_neg (by simp), if_neg (by simp), if_neg hnr]
    cases m with
    | zero =>
      refine ⟨rfl, rfl, ?_⟩
      have h1 : k + (0 + 1) - 1 = k := by omega
      rw [h1]
      rfl
    | succ m' =>
      obtain ⟨ih1, ih2, ih3⟩ := ih (k + 1) (by omega)
      refine ⟨ih1, ?_, ?_⟩
      · show captureCount (.capture k :: .matchTemplate k :: .sleepDelay k ::
          .logAttempt k (env.score k) ::
          (imgAttempts env th ct file (k + 1) (m' + 1)).1) = m' + 1 + 1
        simp only [captureCount, List.filter, List.length_cons] at ih2 ⊢
        omega
      · have hne : (imgAttempts env th ct file (k + 1) (m' + 1)).1 ≠ [] := by
          intro hnil
          rw [hnil] at ih3
          exact Option.noConfusion ih3
        obtain ⟨x, l, hxl⟩ : ∃ x l,
            (imgAttempts env th ct file (k + 1) (m' + 1)).1 = x :: l := by
          cases hl : (imgAttempts env th ct file (k + 1) (m' + 1)).1 with
          | nil => exact absurd hl hne
          | cons x l => exact ⟨x, l, rfl⟩
        show (ImgEvent.capture k :: .matchTemplate k :: .sleepDelay k ::
          .logAttempt k (env.score k) ::
          (imgAttempts env th ct file (k + 1) (m' + 1)).1).getLast? = _
        rw [hxl] at ih3 ⊢
        rw [List.getLast?_cons_cons, List.getLast?_cons_cons,
          List.getLast?_cons_cons, List.getLast?_cons_cons, ih3]
        have harg : k + 1 + (m' + 1) - 1 = k + (m' + 1 + 1) - 1 := by omega
        rw [harg]

/-- The right-click attempt loop ends in the same not-found error when every
attempt scores below the threshold. -/
theorem imgAttemptsR_fail_snd (env : ScreenEnv) (th : ℚ) (ct : String)
    (ox oy : ℤ) (file : String)
    (hrun : ∀ k, env.running k = true) (hcap : ∀ k, env.captureOk k = true)
    (hscore : ∀ k, env.score k < th) :
    ∀ n k, (imgAttemptsR env th ct ox oy file k n).2 = some (.notFound file) := by
  intro n
  induction n with
  | zero => intro k; rfl
  | succ m ih =>
    intro k
    have hnr : ¬th ≤ env.score k := not_le.mpr (hscore k)
    rw [imgAttemptsR]
    simp only [hrun k, hcap k]
    rw [if_neg (by simp), if_neg (by simp), if_neg hnr]
    exact ih (k + 1)

/-! ## Claim theorems -/

/-- C1: for plain steps `A`, `B`, `C`, the sequence
`[A, repeat_start(count=3), B, repeat_end, C]` expands to exactly the 9-entry
plan `[A, start, B, end, B, end, B, end, C]`: the start marker is emitted
once, the body step and the end marker once per iteration, iteration `i` of
body and end tagged nest level `i + 1`. -/
theorem claim1_loop_unrolling (A B C : Step)
    (hA1 : A.type ≠ "repeat_start") (hA2 : A.type ≠ "repeat_end")
    (hB1 : B.type ≠ "repeat_start") (hB2 : B.type ≠ "repeat_end")
    (hC1 : C.type ≠ "repeat_start") (hC2 : C.type ≠ "repeat_end") :
    generateExecutionPlan [A, repeatStartStep 3, B, repeatEndStep, C] =
      .ok [(0, 0), (1, 0), (2, 1), (3, 1), (2, 2), (3, 2), (2, 3), (3, 3), (4, 0)] := by
  simp [generateExecutionPlan, expandNestedLoops, expandF, findEnd, findEndGo,
    repeatIters, stepAt, repeatStartStep, repeatEndStep, getCount, Params.get,
    except_bind_ok, Except.map, hA1, hA2, hB1, hB2, hC1, hC2]

/-- C1 witness: the unrolling at concrete key steps. -/
theorem claim1_loop_unrolling_witness :
    ((keyStep "a").type ≠ "repeat_start" ∧ (keyStep "a").type ≠ "repeat_end" ∧
     (keyStep "b").type ≠ "repeat_start" ∧ (keyStep "b").type ≠ "repeat_end" ∧
     (keyStep "c").type ≠ "repeat_start" ∧ (keyStep "c").type ≠ "repeat_end") ∧
    generateExecutionPlan
        [keyStep "a", repeatStartStep 3, keyStep "b", repeatEndStep, keyStep "c"] =
      .ok [(0, 0), (1, 0), (2, 1), (3, 1), (2, 2), (3, 2), (2, 3), (3, 3), (4, 0)] :=
  ⟨⟨by decide, by decide, by decide, by decide, by decide, by decide⟩,
   claim1_loop_unrolling (keyStep "a") (keyStep "b") (keyStep "c")
     (by decide) (by decide) (by decide) (by decide) (by decide) (by decide)⟩

/-- C2: a step sequence containing a `repeat_start` whose matching-end scan
never returns to depth 0 makes plan expansion fail with a structural error
naming an unmatched `repeat_start`'s index, and the executor returns `False`
with no step dispatched — the step loop is never entered because the plan is
built before any dispatch. -/
theorem claim2_unbalanced_loop (steps : List Step)
    (h : ∃ i, i < steps.length ∧ unmatchedStart steps i) :
    ∃ j, j < steps.length ∧ unmatchedStart steps j ∧
      generateExecutionPlan steps = .error j ∧
      ∀ runningAt outcome,
        executeStepsForMonitor steps runningAt outcome = (false, []) := by
  obtain ⟨i, hi, hum⟩ := h
  cases hplan : generateExecutionPlan steps with
  | ok p =>
    exfalso
    have hplan' : expandF steps steps.length 0 steps.length 0 = .ok p := by
      have := hplan
      unfold generateExecutionPlan expandNestedLoops at this
      simpa using this
    exact hum.2 (expandF_ok_matched steps steps.length 0 steps.length 0 p
      (by omega) hplan' i (by omega) hi hum.1 steps.length (le_refl _))
  | error j =>
    have hplan' : expandF steps steps.length 0 steps.length 0 = .error j := by
      have := hplan
      unfold generateExecutionPlan expandNestedLoops at this
      simpa using this
    obtain ⟨h1, h2, h3, h4⟩ :=
      expandF_error_unmatched steps steps.length 0 steps.length 0 j (by omega) hplan'
    refine ⟨j, h2, ⟨h3, h4⟩, rfl, fun runningAt outcome => ?_⟩
    unfold executeStepsForMonitor
    rw [hplan]

/-- C2 witness: a `repeat_start` with no `repeat_end` at all. -/
theorem claim2_unbalanced_loop_witness :
    (∃ i, i < ([repeatStartStep 2, keyStep "a"] : List Step).length ∧
      unmatchedStart [repeatStartStep 2, keyStep "a"] i) ∧
    ∃ j, j < ([repeatStartStep 2, keyStep "a"] : List Step).length ∧
      unmatchedStart [repeatStartStep 2, keyStep "a"] j ∧
      generateExecutionPlan [repeatStartStep 2, keyStep "a"] = .error j ∧
      ∀ runningAt outcome,
        executeStepsForMonitor [repeatStartStep 2, keyStep "a"] runningAt outcome =
          (false, []) :=
  ⟨⟨0, by decide, by decide, by decide⟩,
   claim2_unbalanced_loop [repeatStartStep 2, keyStep "a"]
     ⟨0, by decide, by decide, by decide⟩⟩

/-- C10: the from-steps expander over the full range with offset `o` returns
exactly the plain expander's result with `o` added to every step index (and
to a structural error's index), nest levels unchanged; with `o = 0` the two
implementations agree exactly. -/
theorem claim10_offset_expander_refines (steps : List Step) (o : ℕ) :
    generateExecutionPlanFromSteps steps o =
      shiftExcept o (generateExecutionPlan steps) ∧
    generateExecutionPlanFromSteps steps 0 = generateExecutionPlan steps := by
  have h1 : ∀ o', generateExecutionPlanFromSteps steps o' =
      shiftExcept o' (generateExecutionPlan steps) := by
    intro o'
    unfold generateExecutionPlanFromSteps expandNestedLoopsFromSteps
      generateExecutionPlan expandNestedLoops
    exact expandFromF_shift steps o' (steps.length - 0) 0 steps.length 0
  exact ⟨h1 o, by rw [h1 0, shiftExcept_zero]⟩

/-- C3 counterexample: a command containing the control character TAB
(`ord 9 < 32`) passes `_validate_command_safety` — the check whitelists tab,
newline and carriage return, so "any command containing control characters is
rejected" is false as stated. -/
theorem claim3_counterexample :
    ('\t' ∈ "echo a\tb".data ∧ '\t'.toNat < 32) ∧
      validateCommandSafety "echo a\tb" = true := by decide

/-- C3 (amended): the denylist check is a pure function of the command text
run before any spawn on both the blocking and fire-and-forget paths — an
unsafe command yields the security error with an empty event trace for every
parameter bag — the three sample denylisted commands are rejected, any
command containing a control character other than tab, newline or carriage
return is rejected, and `echo hello` passes and is spawned on both paths. -/
theorem claim3_command_safety :
    (∀ params cmd proc schedI, Params.get params "command" = some (.str cmd) →
      validateCommandSafety cmd = false →
      executeCmdCommand params proc schedI =
        ([], some (.cmdCommandFailed (.unsafeCommand ⟨cmd.data.take 100⟩)))) ∧
    validateCommandSafety "del /s /q C:\\" = false ∧
    validateCommandSafety "shutdown /r /f" = false ∧
    validateCommandSafety "reg delete HKLM\\SOFTWARE\\Policies" = false ∧
    (∀ cmd, (∃ c, c ∈ cmd.data ∧ c.toNat < 32 ∧ c ∉ ['\t', '\n', '\r']) →
      validateCommandSafety cmd = false) ∧
    validateCommandSafety "echo hello" = true ∧
    executeCmdCommand [("command", .str "echo hello")] (.done 0 "" "") false =
      ([.spawnWait "echo hello" 30], none) ∧
    executeCmdCommand
        [("command", .str "echo hello"), ("wait_completion", .bool false)]
        (.done 0 "" "") false =
      ([.spawnNoWait "echo hello"], none) := by
  refine ⟨?_, by decide, by decide, by decide, ?_, by decide, by decide, by decide⟩
  · intro params cmd proc schedI hcmd hval
    simp [executeCmdCommand, hcmd, hval]
  · intro cmd ⟨c, hc, h32, hnctl⟩
    have hctl : cmd.data.any
        (fun c => decide (c.toNat < 32) && !(['\t', '\n', '\r'].contains c)) = true := by
      rw [List.any_eq_true]
      refine ⟨c, hc, ?_⟩
      simp only [Bool.and_eq_true, decide_eq_true_eq, Bool.not_eq_true']
      refine ⟨h32, ?_⟩
      simpa using hnctl
    cases hp : dangerousPatterns.any (fun p => reSearch p (pyLower cmd)) with
    | true => simp only [validateCommandSafety, hp, if_true]
    | false => simp only [validateCommandSafety, hp, hctl, Bool.false_eq_true,
        if_false, if_true]

/-- C3 witness for the quantified parts of `claim3_command_safety`. -/
theorem claim3_command_safety_witness :
    executeCmdCommand [("command", .str "del /s /q C:\\")] (.done 0 "" "") false =
      ([], some (.cmdCommandFailed (.unsafeCommand "del /s /q C:\\"))) ∧
    validateCommandSafety "echo \x01x" = false :=
  ⟨claim3_command_safety.1 [("command", .str "del /s /q C:\\")] "del /s /q C:\\"
     (.done 0 "" "") false (by decide) (by decide),
   claim3_command_safety.2.2.2.2.1 "echo \x01x"
     ⟨Char.ofNat 1, by decide, by decide, by decide⟩⟩

/-- C4: with an exact-threshold score on the first attempt the click fires on
that attempt at the computed DPI-scaled center point (with the legacy default
`single` click type); with every score below the threshold the handler makes
exactly `retry + 1` capture-and-match attempts, the raised error carries the
file's base name, and the final log entry reports the last attempt's score. -/
theorem claim4_image_click_retry (env : ScreenEnv) (path : String) (th d : ℚ)
    (r : ℤ) :
    (env.decodeOk = true → env.running 0 = true → env.captureOk 0 = true →
      env.score 0 = th → 0 ≤ r →
      executeImageClick env (imgParams path th r d) =
        ([.capture 0, .matchTemplate 0,
          .click "single" (imageClickPoint env (env.loc 0))], none)) ∧
    (env.decodeOk = true → (∀ k, env.running k = true) →
      (∀ k, env.captureOk k = true) → (∀ k, env.score k < th) → 0 ≤ r →
      (executeImageClick env (imgParams path th r d)).2 =
        some (.imageClickFailed (.notFound (pyBasename path))) ∧
      captureCount (executeImageClick env (imgParams path th r d)).1 =
        r.toNat + 1 ∧
      (executeImageClick env (imgParams path th r d)).1.getLast? =
        some (.logAttempt r.toNat (env.score r.toNat))) := by
  constructor
  · intro hdec hrun hcap hscore hr
    rw [executeImageClick_run env path th d r hdec]
    have hn : (r + 1).toNat = r.toNat + 1 := by omega
    rw [hn, imgAttempts]
    rw [if_neg (by simp [hrun]), if_neg (by simp [hcap]),
      if_pos (le_of_eq hscore.symm)]
    rfl
  · intro hdec hrun hcap hscore hr
    rw [executeImageClick_run env path th d r hdec]
    have hn : (r + 1).toNat = r.toNat + 1 := by omega
    rw [hn]
    obtain ⟨h1, h2, h3⟩ := imgAttempts_fail env th "single" (pyBasename path)
      hrun hcap hscore (r.toNat + 1) 0 (by omega)
    refine ⟨by rw [h1]; rfl, h2, ?_⟩
    rw [h3]
    have harg : 0 + (r.toNat + 1) - 1 = r.toNat := by omega
    rw [harg]

/-- C4 witness: concrete hit-at-threshold and always-below-threshold runs. -/
theorem claim4_image_click_retry_witness :
    executeImageClick testEnvHit (imgParams "img/button.png" 1 2 1) =
      ([.capture 0, .matchTemplate 0,
        .click "single" (imageClickPoint testEnvHit (testEnvHit.loc 0))], none) ∧
    ((executeImageClick testEnvMiss (imgParams "img/button.png" 1 2 1)).2 =
        some (.imageClickFailed (.notFound (pyBasename "img/button.png"))) ∧
      captureCount (executeImageClick testEnvMiss
        (imgParams "img/button.png" 1 2 1)).1 = 3 ∧
      (executeImageClick testEnvMiss
        (imgParams "img/button.png" 1 2 1)).1.getLast? =
        some (.logAttempt 2 (testEnvMiss.score 2))) :=
  ⟨(claim4_image_click_retry testEnvHit "img/button.png" 1 1 2).1
     rfl rfl rfl rfl (by decide),
   (claim4_image_click_retry testEnvMiss "img/button.png" 1 1 2).2
     rfl (fun _ => rfl) (fun _ => rfl) (fun _ => show (0:ℚ) < 1 by decide) (by decide)⟩

/-- C5 counterexample: a record with an unrecognized kind and an empty
parameter bag is accepted by `Step.from_dict` and passes `Step.validate` —
construction/parsing does not reject invalid steps. -/
theorem claim5_counterexample :
    Step.from_dict badKindRecord = .ok badKindStep ∧
      badKindStep.validate = true := by decide

/-- C5 (amended): `Step.from_dict` performs no kind or range validation — any
record carrying `type`, `params` and `comment` constructs successfully (with
`enabled` defaulted to true when absent) — and `Step.validate` merely checks
that the dataclass attributes exist, which holds for every `Step`, so it never
rejects anything. -/
theorem claim5_no_construction_validation :
    (∀ t p c ca e, Step.from_dict ⟨some t, some p, some c, ca, e⟩ =
      .ok ⟨t, p, c, ca.getD "", e.getD true⟩) ∧
    (∀ s : Step, s.validate = true) :=
  ⟨fun t p c ca e => by cases e <;> rfl, fun s => rfl⟩

/-- C6 counterexample: with a run already active, `run_all_steps` spawns a
second worker thread instead of rejecting the start request. -/
theorem claim6_counterexample :
    runningState.running = true ∧
      (run_all_steps runningState).workerThreads =
        runningState.workerThreads + 1 := by decide

/-- C6 (amended): `run_all_steps` never consults the running state — from any
state it sets `running`, disables the start button (the only double-start
protection, applied UI-side), enables the stop button, pins `loop_count` to 1
and spawns one more worker thread. -/
theorem claim6_start_not_guarded (s : AppState) :
    (run_all_steps s).running = true ∧
    (run_all_steps s).workerThreads = s.workerThreads + 1 ∧
    (run_all_steps s).runButtonEnabled = false ∧
    (run_all_steps s).stopButtonEnabled = true ∧
    (run_all_steps s).loop_count = 1 :=
  ⟨rfl, rfl, rfl, rfl, rfl⟩

/-- C7 counterexample: loading an `image_click` record without `click_type`
succeeds, but the constructed Step has no `click_type` at all — the default is
not applied at construction/parse time. -/
theorem claim7_counterexample :
    Step.from_dict legacyImageClickRecord = .ok legacyImageClickStep ∧
      Params.get legacyImageClickStep.params "click_type" = none := by decide

/-- C7 (amended): a legacy `image_click` record lacking `click_type` loads
without failing and validates; the `single` default (`right` for the
offset-click handler) is applied at execution time by `params.get`, so the
executed click is a single click (resp. right click). -/
theorem claim7_legacy_click_type_default :
    Step.from_dict legacyImageClickRecord = .ok legacyImageClickStep ∧
    legacyImageClickStep.validate = true ∧
    executeImageClick testEnvHit legacyImageClickStep.params =
      ([.capture 0, .matchTemplate 0,
        .click "single" (imageClickPoint testEnvHit (testEnvHit.loc 0))], none) ∧
    executeImageRightClick testEnvHit (imgParamsR "a.png" 1 5 (-3) 0 1) =
      ([.capture 0, .matchTemplate 0,
        .click "right" (imageOffsetClickPoint testEnvHit (testEnvHit.loc 0) 5 (-3))],
       none) :=
  ⟨rfl, rfl, rfl, rfl⟩

/-- C8 counterexample: an unknown kind does fall through to the key-action
handler, but with the reserved chord `ctrl+shift+f12` the handler takes a
screenshot instead of pressing the key, so "reads `params['key']` and presses
it" fails at that input. -/
theorem claim8_counterexample :
    dispatchHandler "mystery_kind" = .keyAction ∧
      executeKeyAction [("key", .str "ctrl+shift+f12")] = .ok .screenshot := by
  decide

/-- C8 (amended): every enabled step whose type is none of the nine
dispatched kinds — including unknown kinds — falls through to the key-action
handler (never rejected as unrecognized); the handler fails when `key` is
absent, takes a screenshot for the reserved chord `ctrl+shift+f12`
(case-insensitively), and otherwise presses the key (or the `+`-chord). -/
theorem claim8_dispatch_fallthrough :
    (∀ t, t ≠ "repeat_start" → t ≠ "repeat_end" → t ≠ "image_click" →
      t ≠ "coord_click" → t ≠ "coord_drag" → t ≠ "image_relative_right_click" →
      t ≠ "sleep" → t ≠ "custom_text" → t ≠ "cmd_command" →
      dispatchHandler t = .keyAction) ∧
    (∀ ps, Params.get ps "key" = none →
      executeKeyAction ps = .error "KeyError: key") ∧
    (∀ key, pyLower key = "ctrl+shift+f12" →
      executeKeyAction [("key", .str key)] = .ok .screenshot) ∧
    (∀ key, pyLower key ≠ "ctrl+shift+f12" → key.data.contains '+' = false →
      executeKeyAction [("key", .str key)] = .ok (.press (pyLower key))) ∧
    (∀ key, pyLower key ≠ "ctrl+shift+f12" → key.data.contains '+' = true →
      executeKeyAction [("key", .str key)] =
        .ok (.hotkey ((splitOnPred (fun c => c = '+') key.data).map
          (fun part => pyLower (pyStrip ⟨part⟩))))) := by
  refine ⟨?_, ?_, ?_, ?_, ?_⟩
  · intro t h1 h2 h3 h4 h5 h6 h7 h8 h9
    simp [dispatchHandler, h1, h2, h3, h4, h5, h6, h7, h8, h9]
  · intro ps h
    simp [executeKeyAction, h]
  · intro key h
    simp [executeKeyAction, Params.get, h]
  · intro key h1 h2
    have h2' : '+' ∉ key.data := by simpa using h2
    simp [executeKeyAction, Params.get, h1, h2']
  · intro key h1 h2
    have h2' : '+' ∈ key.data := by simpa using h2
    simp [executeKeyAction, Params.get, h1, h2']

/-- C8 witness for the quantified parts of `claim8_dispatch_fallthrough`. -/
theorem claim8_dispatch_fallthrough_witness :
    dispatchHandler "mystery_kind" = .keyAction ∧
    executeKeyAction [("foo", .int 3)] = .error "KeyError: key" ∧
    executeKeyAction [("key", .str "Ctrl+Shift+F12")] = .ok .screenshot ∧
    executeKeyAction [("key", .str "Enter")] = .ok (.press (pyLower "Enter")) ∧
    executeKeyAction [("key", .str "ctrl+c")] =
      .ok (.hotkey ((splitOnPred (fun c => c = '+') "ctrl+c".data).map
        (fun part => pyLower (pyStrip ⟨part⟩)))) :=
  ⟨claim8_dispatch_fallthrough.1 "mystery_kind" (by decide) (by decide)
     (by decide) (by decide) (by decide) (by decide) (by decide) (by decide)
     (by decide),
   claim8_dispatch_fallthrough.2.1 [("foo", .int 3)] (by decide),
   claim8_dispatch_fallthrough.2.2.1 "Ctrl+Shift+F12" (by decide),
   claim8_dispatch_fallthrough.2.2.2.1 "Enter" (by decide) (by decide),
   claim8_dispatch_fallthrough.2.2.2.2 "ctrl+c" (by decide) (by decide)⟩

/-- C9: when the cancellation flag reads false at the top of the retry loop,
both image handlers break out and raise exactly the image-not-found error —
the same error value a genuine search failure (all scores below threshold)
produces — so cancellation mid-search surfaces as a step failure. -/
theorem claim9_cancel_surfaces_as_not_found (env env' : ScreenEnv)
    (path : String) (th d : ℚ) (r ox oy : ℤ)
    (hdec : env.decodeOk = true) (hcancel : env.running 0 = false) (hr : 0 ≤ r)
    (hdec' : env'.decodeOk = true) (hrun' : ∀ k, env'.running k = true)
    (hcap' : ∀ k, env'.captureOk k = true) (hscore' : ∀ k, env'.score k < th) :
    executeImageClick env (imgParams path th r d) =
      ([], some (.imageClickFailed (.notFound (pyBasename path)))) ∧
    (executeImageClick env (imgParams path th r d)).2 =
      (executeImageClick env' (imgParams path th r d)).2 ∧
    executeImageRightClick env (imgParamsR path th ox oy r d) =
      ([], some (.imageRightClickFailed (.notFound (pyBasename path)))) ∧
    (executeImageRightClick env (imgParamsR path th ox oy r d)).2 =
      (executeImageRightClick env' (imgParamsR path th ox oy r d)).2 := by
  have hn : (r + 1).toNat = r.toNat + 1 := by omega
  have hL : executeImageClick env (imgParams path th r d) =
      ([], some (.imageClickFailed (.notFound (pyBasename path)))) := by
    rw [executeImageClick_run env path th d r hdec, hn, imgAttempts]
    simp [hcancel]
  have hLR : executeImageRightClick env (imgParamsR path th ox oy r d) =
      ([], some (.imageRightClickFailed (.notFound (pyBasename path)))) := by
    rw [executeImageRightClick_run env path th d ox oy r hdec, hn, imgAttemptsR]
    simp [hcancel]
  refine ⟨hL, ?_, hLR, ?_⟩
  · rw [hL, executeImageClick_run env' path th d r hdec', hn]
    obtain ⟨h1, _, _⟩ := imgAttempts_fail env' th "single" (pyBasename path)
      hrun' hcap' hscore' (r.toNat + 1) 0 (by omega)
    rw [h1]
    rfl
  · rw [hLR, executeImageRightClick_run env' path th d ox oy r hdec', hn]
    rw [imgAttemptsR_fail_snd env' th "right" ox oy (pyBasename path)
      hrun' hcap' hscore' (r.toNat + 1) 0]
    rfl

/-- C9 witness: cancellation versus genuine miss at concrete inputs. -/
theorem claim9_cancel_surfaces_as_not_found_witness :
    executeImageClick testEnvCancel (imgParams "img/button.png" 1 2 1) =
      ([], some (.imageClickFailed (.notFound (pyBasename "img/button.png")))) ∧
    (executeImageClick testEnvCancel (imgParams "img/button.png" 1 2 1)).2 =
      (executeImageClick testEnvMiss (imgParams "img/button.png" 1 2 1)).2 ∧
    executeImageRightClick testEnvCancel
        (imgParamsR "img/button.png" 1 5 (-3) 2 1) =
      ([], some (.imageRightClickFailed (.notFound (pyBasename "img/button.png")))) ∧
    (executeImageRightClick testEnvCancel
        (imgParamsR "img/button.png" 1 5 (-3) 2 1)).2 =
      (executeImageRightClick testEnvMiss
        (imgParamsR "img/button.png" 1 5 (-3) 2 1)).2 :=
  claim9_cancel_surfaces_as_not_found testEnvCancel testEnvMiss "img/button.png"
    1 1 2 5 (-3) rfl rfl (by decide) rfl (fun _ => rfl) (fun _ => rfl)
    (fun _ => show (0:ℚ) < 1 by decide)

end AutoGui
